import Mathlib

/-!
# A shallow embedding of `statemachine.py` (highland/statemachine)

The repository implements a flat finite-state machine: a `State` carries a
name, optional entry/exit callbacks and an end flag; a `StateMachine` owns a
set of states, a two-level transition table `Dict[Event, Dict[State, Response]]`
and a run loop consuming `(event, parameters)` pairs.

Modelling choices, all read off the source:
* Callbacks are opaque to the engine; we represent each callback slot by
  `Option String` (its identifier; `none` = Python `None`).  Python's
  truthiness test `if self._entry_action:` on a callable-or-None becomes the
  `Option` match.  Invoking a callback appends a record to an observable
  trace, which is what the spec's ordering/determinism properties speak about.
* A guard is a zero-argument predicate; its results are supplied by a fixed
  valuation `gval : String → Bool` passed to `run` (guards are external
  collaborators to the engine).
* `State.__eq__` compares names only, so dictionaries keyed by `State` and the
  state set are modelled as association lists / lists with name-equality
  lookup and set-insert.
* Python dict `get` on a missing key yields `none`; the source's
  `self._state_table.get(event).get(self._current_state)` therefore raises
  `AttributeError` when the event has no row (calling `.get` on `None`);
  `run` returns a `RunResult` with an `err` constructor for that case.
* Event parameters are opaque and modelled as `String`.
-/

/-- `State` from `statemachine.py`: name, optional entry/exit callbacks and
the end flag.  Equality of Python `State`s is name equality (`__eq__`). -/
structure State where
  name : String
  entry_action : Option String
  exit_action : Option String
  is_end_state : Bool
deriving DecidableEq, Repr

/-- `Response` named tuple: `(next_state, action, guard_condition)`. -/
structure Response where
  next_state : State
  action : Option String
  guard_condition : Option String
deriving DecidableEq, Repr

/-- One row of the transition table: the inner `Dict[State, Response]`,
as an association list keyed by `State` (name equality). -/
abbrev Row := List (State × Response)

/-- The transition table `Dict[Event, Dict[State, Response]]`. -/
abbrev Table := List (String × Row)

/-- Observable callback invocations, in the order the engine performs them. -/
inductive Cb where
  | initial (f : String)
  | exit (stateName f : String)
  | action (f : String) (parameters : String)
  | entry (stateName f : String)
  | guard (g : String) (result : Bool)
  | endAct (f : String)
deriving DecidableEq, Repr

/-- The `StateMachine` object state (`__init__`, lines 61-75).  The event
source is passed to `run` as a list instead of being stored.  `machine_data`
is never touched by the engine itself. -/
structure Machine where
  name : String
  current_state : State
  initial_action : Option String
  end_action : Option String
  states : List State
  state_table : Table
  machine_data : List (String × String)
deriving DecidableEq, Repr

/-- The default `initial_state = State('initial')` argument. -/
def defaultInitial : State :=
  { name := "initial", entry_action := none, exit_action := none,
    is_end_state := false }

/-- `StateMachine.__init__`: current state is `initial_state`,
`_states = {initial_state}`, empty table, empty machine data. -/
def mkStateMachine (name : String) (initial_state : State)
    (initial_action end_action : Option String) : Machine :=
  { name := name, current_state := initial_state,
    initial_action := initial_action, end_action := end_action,
    states := [initial_state], state_table := [], machine_data := [] }

/-- Membership in the Python state set: `__eq__` compares names. -/
def memberByName (s : State) (l : List State) : Bool :=
  l.any (fun t => t.name = s.name)

/-- `set.add`: a no-op when an equal (same-name) state is already present,
otherwise the new state joins the set. -/
def insertState (s : State) (l : List State) : List State :=
  if memberByName s l then l else l ++ [s]

/-- `StateMachine.add_state` (line 77-78). -/
def add_state (m : Machine) (s : State) : Machine :=
  { m with states := insertState s m.states }

/-- `StateMachine.add_event` (lines 80-82): create an empty row unless the
event already has one. -/
def add_event (m : Machine) (e : String) : Machine :=
  if m.state_table.any (fun kv => kv.1 = e) then m
  else { m with state_table := m.state_table ++ [(e, [])] }

/-- `self._state_table.get(event)`: `none` when the event has no row. -/
def lookupRow (t : Table) (e : String) : Option Row :=
  (t.find? (fun kv => kv.1 = e)).map (fun kv => kv.2)

/-- `row.get(state)`: lookup keyed by `State.__eq__`, i.e. by name. -/
def lookupResp (row : Row) (s : State) : Option Response :=
  (row.find? (fun kv => kv.1.name = s.name)).map (fun kv => kv.2)

/-- `row[state] = response`: replace the value at an existing equal key
(keeping the stored key object), else append the new pair. -/
def setResp (row : Row) (s : State) (r : Response) : Row :=
  if row.any (fun kv => kv.1.name = s.name) then
    row.map (fun kv => if kv.1.name = s.name then (kv.1, r) else kv)
  else row ++ [(s, r)]

/-- `table[event] = row` for an event already present in the table. -/
def setRow (t : Table) (e : String) (row : Row) : Table :=
  t.map (fun kv => if kv.1 = e then (kv.1, row) else kv)

/-- `StateMachine.add_table_entry` (lines 84-87): `add_event`, `add_state`
on the source state, then `self._state_table[event][state] = response`. -/
def add_table_entry (m : Machine) (e : String) (s : State) (r : Response) :
    Machine :=
  let m1 := add_event m e
  let m2 := add_state m1 s
  { m2 with
    state_table := setRow m2.state_table e (setResp ((lookupRow m2.state_table e).getD []) s r) }

/-- `State.do_entry` (lines 28-30): invoke the entry callback if present. -/
def do_entry (s : State) : List Cb :=
  match s.entry_action with
  | some f => [Cb.entry s.name f]
  | none => []

/-- `State.do_exit` (lines 32-34): invoke the exit callback if present. -/
def do_exit (s : State) : List Cb :=
  match s.exit_action with
  | some f => [Cb.exit s.name f]
  | none => []

/-- The records produced by calling `guard_condition()` when it is present
(line 96 calls the guard exactly once per firing that has one). -/
def guardTrace (gval : String → Bool) (resp : Response) : List Cb :=
  match resp.guard_condition with
  | some g => [Cb.guard g (gval g)]
  | none => []

/-- `guard_condition and not guard_condition()` (line 96): true exactly when
a guard is supplied and it returns `False`. -/
def guardBlocks (gval : String → Bool) (resp : Response) : Bool :=
  match resp.guard_condition with
  | some g => !(gval g)
  | none => false

/-- `if action: action(parameters)` (lines 100-101). -/
def actTrace : Option String → String → List Cb
  | some f, parameters => [Cb.action f parameters]
  | none, _ => []

/-- The callback records of one performed transition (lines 96-102): the
guard call (if any), the old state's exit, the transition action (if any)
with the event's parameters, then the new state's entry. -/
def transTrace (gval : String → Bool) (m : Machine) (resp : Response)
    (parameters : String) : List Cb :=
  guardTrace gval resp ++ do_exit m.current_state ++
    actTrace resp.action parameters ++ do_entry resp.next_state

/-- Outcome of one iteration of the `for` loop in `run` (lines 92-104):
`crash` is the `AttributeError` from `.get` on `None`; `next` proceeds to
the next event; `halt` is `break` from the end-state check. -/
inductive StepOut where
  | crash
  | next (m : Machine) (t : List Cb)
  | halt (m : Machine) (t : List Cb)
deriving DecidableEq, Repr

/-- One iteration of the loop body of `StateMachine.run` (lines 92-104),
translated clause by clause:
`required_response = self._state_table.get(event).get(self._current_state)`
(crashing when `get(event)` is `None`); if a response was found and its
guard blocks, `continue`; otherwise exit, state update, action, entry;
finally the end-state check `if self._current_state.is_end_state: break`,
which is reached whenever `continue` was not executed. -/
def stepIter (gval : String → Bool) (m : Machine) (event parameters : String) :
    StepOut :=
  match lookupRow m.state_table event with
  | none => StepOut.crash
  | some row =>
    match lookupResp row m.current_state with
    | none =>
      if m.current_state.is_end_state then StepOut.halt m [] else StepOut.next m []
    | some resp =>
      if guardBlocks gval resp then StepOut.next m (guardTrace gval resp)
      else
        let t := transTrace gval m resp parameters
        let m' := { m with current_state := resp.next_state }
        if resp.next_state.is_end_state then StepOut.halt m' t else StepOut.next m' t

/-- Result of the run loop: on success, the machine after the loop, the
callback trace and the portion of the event source left unconsumed; `err`
is the propagated `AttributeError` (machine and trace at the raise point). -/
inductive RunResult where
  | ok (m : Machine) (t : List Cb) (unconsumed : List (String × String))
  | err (m : Machine) (t : List Cb)
deriving DecidableEq, Repr

/-- Prefix a callback trace onto a run result. -/
def prependTrace (t : List Cb) : RunResult → RunResult
  | RunResult.ok m tr u => RunResult.ok m (t ++ tr) u
  | RunResult.err m tr => RunResult.err m (t ++ tr)

/-- The `for event, parameters in self._event_source` loop of `run`
(lines 92-104). -/
def runLoop (gval : String → Bool) (m : Machine) :
    List (String × String) → RunResult
  | [] => RunResult.ok m [] []
  | (event, parameters) :: rest =>
    match stepIter gval m event parameters with
    | StepOut.crash => RunResult.err m []
    | StepOut.halt m' t => RunResult.ok m' t rest
    | StepOut.next m' t => prependTrace t (runLoop gval m' rest)

/-- `StateMachine.run` (lines 89-106): optional initial action, the loop,
then the optional end action (skipped when the loop raised). -/
def run (gval : String → Bool) (m : Machine) (events : List (String × String)) :
    RunResult :=
  let initT := match m.initial_action with
    | some f => [Cb.initial f]
    | none => []
  match runLoop gval m events with
  | RunResult.ok m' t u =>
    let endT := match m'.end_action with
      | some f => [Cb.endAct f]
      | none => []
    RunResult.ok m' (initT ++ t ++ endT) u
  | RunResult.err m' t => RunResult.err m' (initT ++ t)

/-- The machine component of a run result. -/
def resultMachine : RunResult → Machine
  | RunResult.ok m _ _ => m
  | RunResult.err m _ => m

/-- The callback trace of a run result. -/
def traceOf : RunResult → List Cb
  | RunResult.ok _ t _ => t
  | RunResult.err _ t => t

/-! ## Example fixtures used by witnesses and counterexamples -/

/-- A guard valuation making every guard return `True`. -/
def gvTrue : String → Bool := fun _ => true

/-- A guard valuation making every guard return `False`. -/
def gvFalse : String → Bool := fun _ => false

/-- Example state `A` with entry and exit callbacks. -/
def stA : State :=
  { name := "A", entry_action := some "enA", exit_action := some "exA",
    is_end_state := false }

/-- Example state `B` with entry and exit callbacks. -/
def stB : State :=
  { name := "B", entry_action := some "enB", exit_action := some "exB",
    is_end_state := false }

/-- Example end state `C` without callbacks. -/
def stC : State :=
  { name := "C", entry_action := none, exit_action := none,
    is_end_state := true }

/-- Example state named `A` that is itself an end state. -/
def stAend : State :=
  { name := "A", entry_action := none, exit_action := none,
    is_end_state := true }

/-- The spec's example machine: `(go, A) → B` with action `ab`,
`(go, B) → C` with action `bc`, started in `A`. -/
def exM : Machine :=
  add_table_entry
    (add_table_entry (mkStateMachine "M" stA (some "init") (some "fin"))
      "go" stA { next_state := stB, action := some "ab", guard_condition := none })
    "go" stB { next_state := stC, action := some "bc", guard_condition := none }

/-! ## Unfolding lemmas for the run loop -/

/-- `runLoop` on a non-empty source dispatches on the loop body's outcome. -/
lemma runLoop_cons (gval : String → Bool) (m : Machine) (e p : String)
    (rest : List (String × String)) :
    runLoop gval m ((e, p) :: rest) =
      match stepIter gval m e p with
      | StepOut.crash => RunResult.err m []
      | StepOut.halt m' t => RunResult.ok m' t rest
      | StepOut.next m' t => prependTrace t (runLoop gval m' rest) := rfl

/-- The loop body when a response is found and its guard does not block. -/
lemma stepIter_trans (gval : String → Bool) (m : Machine) (e p : String)
    (row : Row) (resp : Response)
    (h1 : lookupRow m.state_table e = some row)
    (h2 : lookupResp row m.current_state = some resp)
    (h3 : guardBlocks gval resp = false) :
    stepIter gval m e p =
      (if resp.next_state.is_end_state then
        StepOut.halt { m with current_state := resp.next_state } (transTrace gval m resp p)
      else
        StepOut.next { m with current_state := resp.next_state } (transTrace gval m resp p)) := by
  unfold stepIter
  rw [h1]
  dsimp only
  rw [h2]
  dsimp only
  simp [h3]

/-- The loop body when a response is found whose guard returns `False`. -/
lemma stepIter_guarded (gval : String → Bool) (m : Machine) (e p : String)
    (row : Row) (resp : Response) (g : String)
    (h1 : lookupRow m.state_table e = some row)
    (h2 : lookupResp row m.current_state = some resp)
    (h3 : resp.guard_condition = some g)
    (h4 : gval g = false) :
    stepIter gval m e p = StepOut.next m [Cb.guard g false] := by
  unfold stepIter
  rw [h1]
  dsimp only
  rw [h2]
  dsimp only
  have hb : guardBlocks gval resp = true := by simp [guardBlocks, h3, h4]
  simp [hb, guardTrace, h3, h4]

/-- The loop body when the event has a row that holds no entry for the
current state. -/
lemma stepIter_nomatch (gval : String → Bool) (m : Machine) (e p : String)
    (row : Row)
    (h1 : lookupRow m.state_table e = some row)
    (h2 : lookupResp row m.current_state = none) :
    stepIter gval m e p =
      (if m.current_state.is_end_state then StepOut.halt m [] else StepOut.next m []) := by
  unfold stepIter
  rw [h1]
  dsimp only
  rw [h2]

/-- Prefixing the empty trace changes nothing. -/
lemma prependTrace_nil (r : RunResult) : prependTrace [] r = r := by
  cases r <;> simp [prependTrace]

/-- Trace of a prefixed result. -/
lemma traceOf_prependTrace (t : List Cb) (r : RunResult) :
    traceOf (prependTrace t r) = t ++ traceOf r := by
  cases r <;> simp [prependTrace, traceOf]

/-- Machine of a prefixed result. -/
lemma resultMachine_prependTrace (t : List Cb) (r : RunResult) :
    resultMachine (prependTrace t r) = resultMachine r := by
  cases r <;> simp [prependTrace, resultMachine]

/-! ## C1 -/

/-- C1: refuted as stated.  Producing an event that was never registered
(no row in the transition table) is not silently ignored:
`self._state_table.get(event)` returns `None` and calling `.get` on it
raises `AttributeError`, modelled by the `err` result.  Here the machine
has an empty table and the run aborts on the first event, never reaching
the second one; no callback fires and the state is unchanged, but the loop
does not continue. -/
theorem C1_unregistered_event_raises :
    run gvTrue (mkStateMachine "M" stA none none) [("go", "x"), ("go", "y")] =
      RunResult.err (mkStateMachine "M" stA none none) [] := by
  decide

/-! ## C2 -/

/-- C2: for a found response whose guard is absent or passes, the loop body
performs, in order: the guard call (if one was supplied), the old current
state's exit action, the assignment of `next_state` to `current_state`, the
transition action with the event's parameters (if supplied), and the new
current state's entry action; then the end-state check decides between
`break` and the next event.  So the old state's exit is observed strictly
before the new state's entry, with the transition action strictly between
them. -/
theorem C2_transition_sequence (gval : String → Bool) (m : Machine)
    (e p : String) (rest : List (String × String)) (row : Row) (resp : Response)
    (h1 : lookupRow m.state_table e = some row)
    (h2 : lookupResp row m.current_state = some resp)
    (h3 : guardBlocks gval resp = false) :
    runLoop gval m ((e, p) :: rest) =
      (if resp.next_state.is_end_state then
        RunResult.ok { m with current_state := resp.next_state }
          (guardTrace gval resp ++ do_exit m.current_state ++
            actTrace resp.action p ++ do_entry resp.next_state) rest
      else
        prependTrace
          (guardTrace gval resp ++ do_exit m.current_state ++
            actTrace resp.action p ++ do_entry resp.next_state)
          (runLoop gval { m with current_state := resp.next_state } rest)) := by
  rw [runLoop_cons, stepIter_trans gval m e p row resp h1 h2 h3]
  by_cases hend : resp.next_state.is_end_state <;> simp [hend, transTrace]

/-- The `(go, A) → B` response of the example machine. -/
def respAB : Response :=
  { next_state := stB, action := some "ab", guard_condition := none }

/-- The `(go, B) → C` response of the example machine. -/
def respBC : Response :=
  { next_state := stC, action := some "bc", guard_condition := none }

/-- C2 witness: the example machine fires `(go, A) → B` and the loop body
emits exit-of-`A`, action `ab` with the event's parameters, entry-of-`B`,
in that order. -/
theorem C2_transition_sequence_witness :
    runLoop gvTrue exM [("go", "1")] =
      prependTrace
        (guardTrace gvTrue respAB ++ do_exit exM.current_state ++
          actTrace respAB.action "1" ++ do_entry respAB.next_state)
        (runLoop gvTrue { exM with current_state := respAB.next_state } []) := by
  have h := C2_transition_sequence gvTrue exM "go" "1" []
    [(stA, respAB), (stB, respBC)] respAB (by decide) (by decide) (by decide)
  rw [h]
  decide

/-! ## C3 -/

/-- C3: a found response whose guard returns `False` suppresses the firing:
the guard call is the only callback, the machine (hence `current_state`) is
unchanged, the end-state check is skipped for this iteration (`continue`),
and dispatch resumes on the remaining events. -/
theorem C3_guard_false_suppresses (gval : String → Bool) (m : Machine)
    (e p : String) (rest : List (String × String)) (row : Row)
    (resp : Response) (g : String)
    (h1 : lookupRow m.state_table e = some row)
    (h2 : lookupResp row m.current_state = some resp)
    (h3 : resp.guard_condition = some g)
    (h4 : gval g = false) :
    runLoop gval m ((e, p) :: rest) =
      prependTrace [Cb.guard g false] (runLoop gval m rest) := by
  rw [runLoop_cons, stepIter_guarded gval m e p row resp g h1 h2 h3 h4]

/-- A guarded `(go, A) → B` response. -/
def respG : Response :=
  { next_state := stB, action := some "ab", guard_condition := some "gd" }

/-- A machine with a single guarded transition out of `A`. -/
def exG : Machine :=
  add_table_entry (mkStateMachine "M" stA none none) "go" stA respG

/-- C3 witness: with the guard returning `False`, the firing contributes
only the guard record and the loop proceeds to the next event with the
machine unchanged. -/
theorem C3_guard_false_suppresses_witness :
    runLoop gvFalse exG [("go", "x"), ("go", "y")] =
      prependTrace [Cb.guard "gd" false] (runLoop gvFalse exG [("go", "y")]) :=
  C3_guard_false_suppresses gvFalse exG "go" "x" [("go", "y")]
    [(stA, respG)] respG "gd" (by decide) (by decide) (by decide) (by decide)

/-! ## C4 -/

/-- A machine whose initial state is already an end state, with event `e`
registered but carrying no entry for any state. -/
def exC4 : Machine := add_event (mkStateMachine "M" stAend none none) "e"

/-- C4 counterexample: an iteration whose event has a row but no entry for
the current state (a no-match) does reach the end-state check and can
terminate the loop through it.  Here no transition is ever performed (the
trace is empty and the machine is unchanged), yet the run stops after the
first event, leaving `("f", "2")` unconsumed — under the claim the check
would never fire, the second event would be processed, and (its event being
unregistered) the run would end in `err`. -/
theorem C4_counterexample :
    run gvTrue exC4 [("e", "1"), ("f", "2")] =
      RunResult.ok exC4 [] [("f", "2")] := by
  decide

/-- C4 amended: the end-state check is skipped exactly by guard-suppressed
iterations (`continue`).  A no-match iteration leaves the state unchanged
and invokes no callback, but does perform the end-state check and
terminates the loop when the (unchanged) current state is an end state;
a guard-suppressed iteration proceeds to the next event without the
check. -/
theorem C4_amended_endcheck_scope :
    (∀ (gval : String → Bool) (m : Machine) (e p : String)
      (rest : List (String × String)) (row : Row),
      lookupRow m.state_table e = some row →
      lookupResp row m.current_state = none →
      runLoop gval m ((e, p) :: rest) =
        (if m.current_state.is_end_state then RunResult.ok m [] rest
         else runLoop gval m rest)) ∧
    (∀ (gval : String → Bool) (m : Machine) (e p : String)
      (rest : List (String × String)) (row : Row) (resp : Response) (g : String),
      lookupRow m.state_table e = some row →
      lookupResp row m.current_state = some resp →
      resp.guard_condition = some g → gval g = false →
      runLoop gval m ((e, p) :: rest) =
        prependTrace [Cb.guard g false] (runLoop gval m rest)) := by
  constructor
  · intro gval m e p rest row h1 h2
    rw [runLoop_cons, stepIter_nomatch gval m e p row h1 h2]
    by_cases hend : m.current_state.is_end_state <;> simp [hend, prependTrace_nil]
  · intro gval m e p rest row resp g h1 h2 h3 h4
    rw [runLoop_cons, stepIter_guarded gval m e p row resp g h1 h2 h3 h4]

/-- C4 amended witness: a concrete no-match iteration on an end state halts
the loop, and a concrete guard-suppressed iteration skips the check. -/
theorem C4_amended_endcheck_scope_witness :
    (runLoop gvTrue exC4 [("e", "1"), ("f", "2")] =
      RunResult.ok exC4 [] [("f", "2")]) ∧
    (runLoop gvFalse exG [("go", "x")] =
      prependTrace [Cb.guard "gd" false] (runLoop gvFalse exG [])) := by
  constructor
  · have h := C4_amended_endcheck_scope.1 gvTrue exC4 "e" "1" [("f", "2")] []
      (by decide) (by decide)
    rw [h]
    decide
  · exact C4_amended_endcheck_scope.2 gvFalse exG "go" "x" [] [(stA, respG)]
      respG "gd" (by decide) (by decide) (by decide) (by decide)

/-! ## C8 -/

/-- C8: `add_state` with a state whose name equals an already-registered
state's name is a no-op (Python set semantics under `__eq__` by name), and
`add_event` with an already-registered event keeps the machine unchanged,
preserving the event's existing row. -/
theorem C8_idempotent_registration :
    (∀ (m : Machine) (s s' : State), s'.name = s.name →
      add_state (add_state m s) s' = add_state m s) ∧
    (∀ (m : Machine) (e : String),
      add_event (add_event m e) e = add_event m e) := by
  constructor
  · intro m s s' hname
    have hins : insertState s' (insertState s m.states) = insertState s m.states := by
      unfold insertState memberByName
      by_cases hmem : (m.states.any fun t => t.name = s.name) = true
      · simp [hmem, hname]
      · simp [hmem, hname]
    simp [add_state, hins]
  · intro m e
    unfold add_event
    by_cases hmem : (m.state_table.any fun kv => kv.1 = e) = true
    · simp [hmem]
    · simp [hmem]

/-- C8 witness: re-adding a same-named state (with different callbacks) and
re-adding an event are no-ops on a concrete machine. -/
theorem C8_idempotent_registration_witness :
    (add_state (add_state (mkStateMachine "M" stA none none) stB)
        { name := "B", entry_action := none, exit_action := none,
          is_end_state := false } =
      add_state (mkStateMachine "M" stA none none) stB) ∧
    (add_event (add_event (mkStateMachine "M" stA none none) "go") "go" =
      add_event (mkStateMachine "M" stA none none) "go") :=
  ⟨C8_idempotent_registration.1 (mkStateMachine "M" stA none none) stB
      { name := "B", entry_action := none, exit_action := none,
        is_end_state := false } (by decide),
    C8_idempotent_registration.2 (mkStateMachine "M" stA none none) "go"⟩

/-! ## Machinery for run-loop inductions -/

/-- `runLoop` when the loop body proceeds to the next event. -/
lemma runLoop_cons_next (gval : String → Bool) (m : Machine) (e p : String)
    (rest : List (String × String)) (m' : Machine) (t : List Cb)
    (h : stepIter gval m e p = StepOut.next m' t) :
    runLoop gval m ((e, p) :: rest) = prependTrace t (runLoop gval m' rest) := by
  rw [runLoop_cons, h]

/-- `runLoop` when the loop body breaks on the end-state check. -/
lemma runLoop_cons_halt (gval : String → Bool) (m : Machine) (e p : String)
    (rest : List (String × String)) (m' : Machine) (t : List Cb)
    (h : stepIter gval m e p = StepOut.halt m' t) :
    runLoop gval m ((e, p) :: rest) = RunResult.ok m' t rest := by
  rw [runLoop_cons, h]

/-- `runLoop` when the loop body raises. -/
lemma runLoop_cons_crash (gval : String → Bool) (m : Machine) (e p : String)
    (rest : List (String × String))
    (h : stepIter gval m e p = StepOut.crash) :
    runLoop gval m ((e, p) :: rest) = RunResult.err m [] := by
  rw [runLoop_cons, h]

/-- Requirement that every response target stored in the table is a member
of the given state set. -/
def allNextRegistered (t : Table) (l : List State) : Bool :=
  t.all (fun kv => kv.2.all (fun sr => memberByName sr.2.next_state l))

/-- A successful two-level lookup returns a response stored in the table,
so its target is registered whenever all stored targets are. -/
lemma allNext_lookup (t : Table) (l : List State) (e : String) (row : Row)
    (s : State) (resp : Response)
    (hall : allNextRegistered t l = true)
    (h1 : lookupRow t e = some row)
    (h2 : lookupResp row s = some resp) :
    memberByName resp.next_state l = true := by
  unfold lookupRow at h1
  unfold lookupResp at h2
  rw [Option.map_eq_some'] at h1 h2
  obtain ⟨kv, hfind, hkv⟩ := h1
  obtain ⟨kv2, hfind2, hkv2⟩ := h2
  have hmem : kv ∈ t := List.mem_of_find?_eq_some hfind
  have hmem2 : kv2 ∈ row := List.mem_of_find?_eq_some hfind2
  unfold allNextRegistered at hall
  rw [List.all_eq_true] at hall
  have h3 := hall kv hmem
  rw [List.all_eq_true, hkv] at h3
  have h4 := h3 kv2 hmem2
  rw [hkv2] at h4
  exact h4

/-- Complete case analysis of one loop iteration. -/
lemma stepIter_cases (gval : String → Bool) (m : Machine) (e p : String) :
    stepIter gval m e p = StepOut.crash ∨
    (∃ row, lookupRow m.state_table e = some row ∧
      lookupResp row m.current_state = none ∧
      stepIter gval m e p =
        (if m.current_state.is_end_state then StepOut.halt m []
         else StepOut.next m [])) ∨
    (∃ row resp, lookupRow m.state_table e = some row ∧
      lookupResp row m.current_state = some resp ∧
      ((guardBlocks gval resp = true ∧
        stepIter gval m e p = StepOut.next m (guardTrace gval resp)) ∨
       (guardBlocks gval resp = false ∧
        stepIter gval m e p =
          (if resp.next_state.is_end_state then
            StepOut.halt { m with current_state := resp.next_state }
              (transTrace gval m resp p)
          else
            StepOut.next { m with current_state := resp.next_state }
              (transTrace gval m resp p))))) := by
  cases hrow : lookupRow m.state_table e with
  | none =>
    left
    unfold stepIter
    rw [hrow]
  | some row =>
    cases hresp : lookupResp row m.current_state with
    | none =>
      right; left
      exact ⟨row, rfl, hresp, stepIter_nomatch gval m e p row hrow hresp⟩
    | some resp =>
      right; right
      refine ⟨row, resp, rfl, hresp, ?_⟩
      by_cases hg : guardBlocks gval resp = true
      · left
        refine ⟨hg, ?_⟩
        unfold stepIter
        rw [hrow]
        dsimp only
        rw [hresp]
        dsimp only
        simp [hg]
      · right
        have hg' : guardBlocks gval resp = false := by simpa using hg
        exact ⟨hg', stepIter_trans gval m e p row resp hrow hresp hg'⟩

/-- Adding a state to the set preserves membership of any member. -/
lemma memberByName_insertState (s s' : State) (l : List State)
    (h : memberByName s l = true) :
    memberByName s (insertState s' l) = true := by
  unfold insertState
  split
  · exact h
  · unfold memberByName at h ⊢
    rw [List.any_append]
    simp [h]

/-- Membership of `current_state` in `_states` is preserved by the whole
run loop, provided every response target in the table is registered.  The
loop never changes `_states` or the table; a transition replaces
`current_state` by a looked-up response's `next_state`, which the
hypothesis places in `_states`. -/
lemma runLoop_member (gval : String → Bool) :
    ∀ (events : List (String × String)) (m : Machine),
      allNextRegistered m.state_table m.states = true →
      memberByName m.current_state m.states = true →
      memberByName (resultMachine (runLoop gval m events)).current_state
        (resultMachine (runLoop gval m events)).states = true := by
  intro events
  induction events with
  | nil =>
    intro m hall hmem
    simpa [runLoop, resultMachine] using hmem
  | cons ev rest ih =>
    intro m hall hmem
    obtain ⟨e, p⟩ := ev
    rcases stepIter_cases gval m e p with hc | ⟨row, hrow, hresp, hs⟩ |
      ⟨row, resp, hrow, hresp, hg⟩
    · rw [runLoop_cons_crash gval m e p rest hc]
      simpa [resultMachine] using hmem
    · by_cases hend : m.current_state.is_end_state
      · rw [if_pos hend] at hs
        rw [runLoop_cons_halt gval m e p rest m [] hs]
        simpa [resultMachine] using hmem
      · rw [if_neg hend] at hs
        rw [runLoop_cons_next gval m e p rest m [] hs, prependTrace_nil]
        exact ih m hall hmem
    · rcases hg with ⟨hgt, hs⟩ | ⟨hgf, hs⟩
      · rw [runLoop_cons_next gval m e p rest m (guardTrace gval resp) hs,
          resultMachine_prependTrace]
        exact ih m hall hmem
      · have hmem' : memberByName resp.next_state m.states = true :=
          allNext_lookup m.state_table m.states e row m.current_state resp
            hall hrow hresp
        by_cases hend : resp.next_state.is_end_state
        · rw [if_pos hend] at hs
          rw [runLoop_cons_halt gval m e p rest _ _ hs]
          simpa [resultMachine] using hmem'
        · rw [if_neg hend] at hs
          rw [runLoop_cons_next gval m e p rest _ _ hs,
            resultMachine_prependTrace]
          exact ih { m with current_state := resp.next_state }
            (by simpa using hall) (by simpa using hmem')

/-! ## C5 -/

/-- A machine with a transition from `A` to `B` where `B` was never
registered via `add_state` (`add_table_entry` registers only the source
state). -/
def exC5 : Machine :=
  add_table_entry (mkStateMachine "M" stA none none) "go" stA
    { next_state := stB, action := none, guard_condition := none }

/-- C5 counterexample: after one performed transition, `current_state` is
`B` but `_states` is still `{A}` — the membership invariant fails, because
`add_table_entry` never registers `response.next_state`. -/
theorem C5_counterexample :
    memberByName (resultMachine (run gvTrue exC5 [("go", "x")])).current_state
      (resultMachine (run gvTrue exC5 [("go", "x")])).states = false := by
  decide

/-- C5 amended: `current_state ∈ _states` holds after construction and is
preserved by `add_state`, `add_event` and `add_table_entry`; it is
preserved by every iteration of `run()` under the additional assumption
that every response target stored in the table is a member of `_states`
(which `add_table_entry` does not itself guarantee, since it registers only
the source state). -/
theorem C5_membership_invariant :
    (∀ (n : String) (s : State) (ia ea : Option String),
      memberByName (mkStateMachine n s ia ea).current_state
        (mkStateMachine n s ia ea).states = true) ∧
    (∀ (m : Machine) (s : State),
      memberByName m.current_state m.states = true →
      memberByName (add_state m s).current_state (add_state m s).states = true) ∧
    (∀ (m : Machine) (e : String),
      memberByName m.current_state m.states = true →
      memberByName (add_event m e).current_state (add_event m e).states = true) ∧
    (∀ (m : Machine) (e : String) (s : State) (r : Response),
      memberByName m.current_state m.states = true →
      memberByName (add_table_entry m e s r).current_state
        (add_table_entry m e s r).states = true) ∧
    (∀ (gval : String → Bool) (m : Machine) (events : List (String × String)),
      allNextRegistered m.state_table m.states = true →
      memberByName m.current_state m.states = true →
      memberByName (resultMachine (runLoop gval m events)).current_state
        (resultMachine (runLoop gval m events)).states = true) := by
  refine ⟨?_, ?_, ?_, ?_, ?_⟩
  · intro n s ia ea
    simp [mkStateMachine, memberByName]
  · intro m s h
    simpa [add_state] using memberByName_insertState m.current_state s m.states h
  · intro m e h
    unfold add_event
    split
    · exact h
    · simpa using h
  · intro m e s r h
    have h1 : memberByName (add_event m e).current_state (add_event m e).states = true := by
      unfold add_event
      split
      · exact h
      · simpa using h
    have h2 : memberByName (add_state (add_event m e) s).current_state
        (add_state (add_event m e) s).states = true := by
      simpa [add_state] using
        memberByName_insertState (add_event m e).current_state s (add_event m e).states h1
    simpa [add_table_entry] using h2
  · intro gval m events hall hmem
    exact runLoop_member gval events m hall hmem

/-- The example machine with every transition target registered. -/
def exMreg : Machine := add_state exM stC

/-- C5 witness: the invariant theorem applied to concrete machines, with
all hypotheses discharged by evaluation. -/
theorem C5_membership_invariant_witness :
    (memberByName (mkStateMachine "M" stA none none).current_state
      (mkStateMachine "M" stA none none).states = true) ∧
    (memberByName (add_state exM stC).current_state
      (add_state exM stC).states = true) ∧
    (memberByName (add_event exM "oth").current_state
      (add_event exM "oth").states = true) ∧
    (memberByName (add_table_entry exM "oth" stB respBC).current_state
      (add_table_entry exM "oth" stB respBC).states = true) ∧
    (memberByName
      (resultMachine (runLoop gvTrue exMreg [("go", "1"), ("go", "2")])).current_state
      (resultMachine (runLoop gvTrue exMreg [("go", "1"), ("go", "2")])).states = true) :=
  ⟨C5_membership_invariant.1 "M" stA none none,
   C5_membership_invariant.2.1 exM stC (by decide),
   C5_membership_invariant.2.2.1 exM "oth" (by decide),
   C5_membership_invariant.2.2.2.1 exM "oth" stB respBC (by decide),
   C5_membership_invariant.2.2.2.2 gvTrue exMreg [("go", "1"), ("go", "2")]
     (by decide) (by decide)⟩

/-! ## C6 -/

/-- Recognizer for end-action records. -/
def isEndAct : Cb → Bool
  | Cb.endAct _ => true
  | _ => false

/-- Number of end-action invocations recorded in a trace. -/
def countEndAct (t : List Cb) : Nat := t.countP isEndAct

/-- Counting end-action records distributes over concatenation. -/
lemma countEndAct_append (a b : List Cb) :
    countEndAct (a ++ b) = countEndAct a + countEndAct b :=
  List.countP_append _ _ _

/-- A guard call is not an end-action record. -/
lemma countEndAct_guardTrace (gval : String → Bool) (resp : Response) :
    countEndAct (guardTrace gval resp) = 0 := by
  unfold guardTrace
  cases resp.guard_condition <;> simp [countEndAct, isEndAct, List.countP_cons]

/-- A transition's trace contains no end-action record. -/
lemma countEndAct_transTrace (gval : String → Bool) (m : Machine)
    (resp : Response) (p : String) :
    countEndAct (transTrace gval m resp p) = 0 := by
  unfold transTrace
  rw [countEndAct_append, countEndAct_append, countEndAct_append,
    countEndAct_guardTrace]
  have h1 : countEndAct (do_exit m.current_state) = 0 := by
    unfold do_exit
    cases m.current_state.exit_action <;>
      simp [countEndAct, isEndAct, List.countP_cons]
  have h2 : countEndAct (actTrace resp.action p) = 0 := by
    unfold actTrace
    cases resp.action <;> simp [countEndAct, isEndAct, List.countP_cons]
  have h3 : countEndAct (do_entry resp.next_state) = 0 := by
    unfold do_entry
    cases resp.next_state.entry_action <;>
      simp [countEndAct, isEndAct, List.countP_cons]
  simp [h1, h2, h3]

/-- The loop itself never emits an end-action record (only the epilogue of
`run` does). -/
lemma runLoop_no_endAct (gval : String → Bool) :
    ∀ (events : List (String × String)) (m : Machine),
      countEndAct (traceOf (runLoop gval m events)) = 0 := by
  intro events
  induction events with
  | nil =>
    intro m
    simp [runLoop, traceOf, countEndAct]
  | cons ev rest ih =>
    intro m
    obtain ⟨e, p⟩ := ev
    rcases stepIter_cases gval m e p with hc | ⟨row, hrow, hresp, hs⟩ |
      ⟨row, resp, hrow, hresp, hg⟩
    · rw [runLoop_cons_crash gval m e p rest hc]
      simp [traceOf, countEndAct]
    · by_cases hend : m.current_state.is_end_state
      · rw [if_pos hend] at hs
        rw [runLoop_cons_halt gval m e p rest m [] hs]
        simp [traceOf, countEndAct]
      · rw [if_neg hend] at hs
        rw [runLoop_cons_next gval m e p rest m [] hs, prependTrace_nil]
        exact ih m
    · rcases hg with ⟨hgt, hs⟩ | ⟨hgf, hs⟩
      · rw [runLoop_cons_next gval m e p rest m (guardTrace gval resp) hs,
          traceOf_prependTrace, countEndAct_append, countEndAct_guardTrace]
        simpa using ih m
      · by_cases hend : resp.next_state.is_end_state
        · rw [if_pos hend] at hs
          rw [runLoop_cons_halt gval m e p rest _ _ hs]
          simpa [traceOf] using countEndAct_transTrace gval m resp p
        · rw [if_neg hend] at hs
          rw [runLoop_cons_next gval m e p rest _ _ hs, traceOf_prependTrace,
            countEndAct_append, countEndAct_transTrace]
          simpa using ih { m with current_state := resp.next_state }

/-- The loop never changes the machine's `end_action`. -/
lemma runLoop_end_action (gval : String → Bool) :
    ∀ (events : List (String × String)) (m : Machine),
      (resultMachine (runLoop gval m events)).end_action = m.end_action := by
  intro events
  induction events with
  | nil =>
    intro m
    simp [runLoop, resultMachine]
  | cons ev rest ih =>
    intro m
    obtain ⟨e, p⟩ := ev
    rcases stepIter_cases gval m e p with hc | ⟨row, hrow, hresp, hs⟩ |
      ⟨row, resp, hrow, hresp, hg⟩
    · rw [runLoop_cons_crash gval m e p rest hc]
      simp [resultMachine]
    · by_cases hend : m.current_state.is_end_state
      · rw [if_pos hend] at hs
        rw [runLoop_cons_halt gval m e p rest m [] hs]
        simp [resultMachine]
      · rw [if_neg hend] at hs
        rw [runLoop_cons_next gval m e p rest m [] hs, prependTrace_nil]
        exact ih m
    · rcases hg with ⟨hgt, hs⟩ | ⟨hgf, hs⟩
      · rw [runLoop_cons_next gval m e p rest m (guardTrace gval resp) hs,
          resultMachine_prependTrace]
        exact ih m
      · by_cases hend : resp.next_state.is_end_state
        · rw [if_pos hend] at hs
          rw [runLoop_cons_halt gval m e p rest _ _ hs]
          simp [resultMachine]
        · rw [if_neg hend] at hs
          rw [runLoop_cons_next gval m e p rest _ _ hs,
            resultMachine_prependTrace]
          simpa using ih { m with current_state := resp.next_state }

/-- C6: a performed transition into an end state makes the loop `break`
immediately, returning the remaining events unconsumed; and on every run
that terminates normally (end state or source exhaustion) the end action
is recorded exactly once when set, zero times when absent. -/
theorem C6_end_state_halts_and_end_action_once :
    (∀ (gval : String → Bool) (m : Machine) (e p : String)
      (rest : List (String × String)) (row : Row) (resp : Response),
      lookupRow m.state_table e = some row →
      lookupResp row m.current_state = some resp →
      guardBlocks gval resp = false →
      resp.next_state.is_end_state = true →
      runLoop gval m ((e, p) :: rest) =
        RunResult.ok { m with current_state := resp.next_state }
          (transTrace gval m resp p) rest) ∧
    (∀ (gval : String → Bool) (m : Machine) (events : List (String × String))
      (m' : Machine) (t : List Cb) (u : List (String × String)),
      run gval m events = RunResult.ok m' t u →
      countEndAct t = (match m.end_action with | some _ => 1 | none => 0)) := by
  constructor
  · intro gval m e p rest row resp h1 h2 h3 h4
    have hs := stepIter_trans gval m e p row resp h1 h2 h3
    rw [if_pos h4] at hs
    exact runLoop_cons_halt gval m e p rest _ _ hs
  · intro gval m events m' t u h
    unfold run at h
    cases hr : runLoop gval m events with
    | err m2 t2 =>
      rw [hr] at h
      simp at h
    | ok m2 t2 u2 =>
      rw [hr] at h
      dsimp only at h
      have ht : t = (match m.initial_action with
          | some f => [Cb.initial f]
          | none => []) ++ t2 ++ (match m2.end_action with
          | some f => [Cb.endAct f]
          | none => []) := by
        cases h
        simp
      have ht2 : countEndAct t2 = 0 := by
        have := runLoop_no_endAct gval events m
        rw [hr] at this
        simpa [traceOf] using this
      have hea : m2.end_action = m.end_action := by
        have := runLoop_end_action gval events m
        rw [hr] at this
        simpa [resultMachine] using this
      rw [ht, countEndAct_append, countEndAct_append, ht2, hea]
      cases hia : m.initial_action <;> cases hma : m.end_action <;>
        simp [countEndAct, isEndAct, List.countP_cons]

/-- The example machine positioned in state `B`, one transition away from
the end state `C`. -/
def exMatB : Machine := { exM with current_state := stB }

/-- C6 witness: the `(go, B) → C` firing halts the loop leaving the third
event unconsumed, and a full run of the example machine records its end
action exactly once. -/
theorem C6_end_state_halts_and_end_action_once_witness :
    (runLoop gvTrue exMatB [("go", "2"), ("go", "3")] =
      RunResult.ok { exMatB with current_state := stC }
        (transTrace gvTrue exMatB respBC "2") [("go", "3")]) ∧
    countEndAct [Cb.initial "init", Cb.exit "A" "exA", Cb.action "ab" "1",
      Cb.entry "B" "enB", Cb.exit "B" "exB", Cb.action "bc" "2",
      Cb.endAct "fin"] = 1 := by
  constructor
  · exact C6_end_state_halts_and_end_action_once.1 gvTrue exMatB "go" "2"
      [("go", "3")] [(stA, respAB), (stB, respBC)] respBC
      (by decide) (by decide) (by decide) (by decide)
  · have h := C6_end_state_halts_and_end_action_once.2 gvTrue exM
      [("go", "1"), ("go", "2"), ("go", "3")] { exM with current_state := stC }
      [Cb.initial "init", Cb.exit "A" "exA", Cb.action "ab" "1",
       Cb.entry "B" "enB", Cb.exit "B" "exB", Cb.action "bc" "2",
       Cb.endAct "fin"] [("go", "3")] (by decide)
    have hea : exM.end_action = some "fin" := by decide
    rw [hea] at h
    simpa using h

/-! ## C7 -/

/-- After `add_event`, the event has a row: its previous row when one
existed, the empty row otherwise. -/
lemma lookupRow_add_event (m : Machine) (e : String) :
    lookupRow (add_event m e).state_table e =
      some ((lookupRow m.state_table e).getD []) := by
  unfold add_event
  cases hf : m.state_table.find? (fun kv => kv.1 = e) with
  | some kv =>
    have hany : (m.state_table.any fun kv => kv.1 = e) = true := by
      rw [List.any_eq_true]
      refine ⟨kv, List.mem_of_find?_eq_some hf, ?_⟩
      exact List.find?_some (p := fun kv : String × Row => decide (kv.1 = e)) hf
    rw [if_pos hany]
    simp [lookupRow, hf]
  | none =>
    have hany : ¬ (m.state_table.any fun kv => kv.1 = e) = true := by
      rw [List.any_eq_true]
      rw [List.find?_eq_none] at hf
      rintro ⟨x, hx, hp⟩
      exact hf x hx hp
    rw [if_neg hany]
    simp [lookupRow, List.find?_append, hf]

/-- `add_event` leaves every other event's row unchanged. -/
lemma lookupRow_add_event_ne (m : Machine) (e e' : String) (h : e' ≠ e) :
    lookupRow (add_event m e).state_table e' = lookupRow m.state_table e' := by
  unfold add_event
  split
  · rfl
  · simp [lookupRow, List.find?_append]
    rw [if_neg (fun hh => h hh.symm), Option.or_none]

/-- Writing a row at an existing key makes lookup return that row. -/
lemma lookupRow_setRow_self (t : Table) (e : String) (row : Row) :
    (lookupRow t e).isSome = true → lookupRow (setRow t e row) e = some row := by
  induction t with
  | nil =>
    intro h
    simp [lookupRow] at h
  | cons kv tl ih =>
    intro h
    by_cases he : kv.1 = e
    · simp [setRow, lookupRow, List.find?_cons_of_pos, he]
    · have h' : (lookupRow tl e).isSome = true := by
        simpa [lookupRow, List.find?_cons_of_neg, he] using h
      have := ih h'
      simpa [setRow, lookupRow, List.find?_cons_of_neg, he] using this

/-- Writing a row at one key leaves every other key's lookup unchanged. -/
lemma lookupRow_setRow_ne (t : Table) (e e' : String) (row : Row)
    (h : e' ≠ e) : lookupRow (setRow t e row) e' = lookupRow t e' := by
  induction t with
  | nil => rfl
  | cons kv tl ih =>
    simp only [setRow, List.map_cons] at ih ⊢
    by_cases he : kv.1 = e
    · have hk : ¬ kv.1 = e' := fun hh => h (hh.symm.trans he)
      unfold lookupRow
      rw [List.find?_cons_of_neg (p := fun kv : String × Row => decide (kv.1 = e')) _
          (by rw [if_pos he]; simpa using hk),
        List.find?_cons_of_neg (p := fun kv : String × Row => decide (kv.1 = e')) _
          (by simpa using hk)]
      exact ih
    · rw [if_neg he]
      by_cases hk : kv.1 = e'
      · unfold lookupRow
        rw [List.find?_cons_of_pos (p := fun kv : String × Row => decide (kv.1 = e')) _
            (by simpa using hk),
          List.find?_cons_of_pos (p := fun kv : String × Row => decide (kv.1 = e')) _
            (by simpa using hk)]
      · unfold lookupRow
        rw [List.find?_cons_of_neg (p := fun kv : String × Row => decide (kv.1 = e')) _
            (by simpa using hk),
          List.find?_cons_of_neg (p := fun kv : String × Row => decide (kv.1 = e')) _
            (by simpa using hk)]
        exact ih

/-- Replacing same-named keys' values in a row does not affect lookups at
a differently named key. -/
lemma lookupResp_mapset_ne (s : State) (r : Response) (s' : State)
    (h : s'.name ≠ s.name) :
    ∀ row : Row,
      lookupResp (row.map (fun kv =>
        if kv.1.name = s.name then (kv.1, r) else kv)) s' = lookupResp row s' := by
  intro row
  induction row with
  | nil => rfl
  | cons kv tl ih =>
    simp only [List.map_cons]
    by_cases hks : kv.1.name = s.name
    · have hk : ¬ kv.1.name = s'.name := fun hh => h (hh.symm.trans hks)
      unfold lookupResp
      rw [List.find?_cons_of_neg (p := fun kv : State × Response => decide (kv.1.name = s'.name)) _
          (by rw [if_pos hks]; simpa using hk),
        List.find?_cons_of_neg (p := fun kv : State × Response => decide (kv.1.name = s'.name)) _
          (by simpa using hk)]
      exact ih
    · rw [if_neg hks]
      by_cases hk : kv.1.name = s'.name
      · unfold lookupResp
        rw [List.find?_cons_of_pos (p := fun kv : State × Response => decide (kv.1.name = s'.name)) _
            (by simpa using hk),
          List.find?_cons_of_pos (p := fun kv : State × Response => decide (kv.1.name = s'.name)) _
            (by simpa using hk)]
      · unfold lookupResp
        rw [List.find?_cons_of_neg (p := fun kv : State × Response => decide (kv.1.name = s'.name)) _
            (by simpa using hk),
          List.find?_cons_of_neg (p := fun kv : State × Response => decide (kv.1.name = s'.name)) _
            (by simpa using hk)]
        exact ih

/-- Storing a response under a state key leaves lookups at differently
named keys unchanged. -/
lemma lookupResp_setResp_ne (row : Row) (s : State) (r : Response)
    (s' : State) (h : s'.name ≠ s.name) :
    lookupResp (setResp row s r) s' = lookupResp row s' := by
  unfold setResp
  split
  · exact lookupResp_mapset_ne s r s' h row
  · unfold lookupResp
    rw [List.find?_append,
      List.find?_cons_of_neg (p := fun kv : State × Response => decide (kv.1.name = s'.name)) _
        (by simpa using fun hh => h hh.symm)]
    simp [Option.or_none]

/-- Storing a response under a state key makes lookup at that key (by
name equality) return it. -/
lemma lookupResp_setResp_self (row : Row) (s : State) (r : Response) :
    lookupResp (setResp row s r) s = some r := by
  unfold setResp
  split
  · rename_i hany
    induction row with
    | nil => simp at hany
    | cons kv tl ih =>
      by_cases hk : kv.1.name = s.name
      · simp [lookupResp, hk]
      · have hany' : (tl.any fun kv => kv.1.name = s.name) = true := by
          simpa [hk] using hany
        simpa [lookupResp, hk] using ih hany'
  · rename_i hany
    have hnone : row.find? (fun kv => kv.1.name = s.name) = none := by
      rw [List.find?_eq_none]
      intro x hx hp
      rw [List.any_eq_true] at hany
      exact hany ⟨x, hx, by simpa using hp⟩
    simp [lookupResp, List.find?_append, hnone]

/-- A state is a member of the set it was just added to. -/
lemma memberByName_insertState_self (s : State) (l : List State) :
    memberByName s (insertState s l) = true := by
  unfold insertState
  split
  · assumption
  · unfold memberByName
    rw [List.any_append]
    simp

/-- C7: `add_table_entry e s r` registers the source state `s`, sets
`table[e][s] = r` (creating the row when the event was unregistered,
overwriting any previous response for that pair), and leaves every other
event's row and every other state's entry in this row unchanged. -/
theorem C7_add_table_entry_spec (m : Machine) (e : String) (s : State)
    (r : Response) :
    memberByName s (add_table_entry m e s r).states = true ∧
    (lookupRow (add_table_entry m e s r).state_table e).bind
        (fun row => lookupResp row s) = some r ∧
    (∀ e', e' ≠ e →
      lookupRow (add_table_entry m e s r).state_table e' =
        lookupRow m.state_table e') ∧
    (∀ s', s'.name ≠ s.name →
      (lookupRow (add_table_entry m e s r).state_table e).bind
          (fun row => lookupResp row s') =
        lookupResp ((lookupRow m.state_table e).getD []) s') := by
  have hm2tab : (add_table_entry m e s r).state_table =
      setRow (add_event m e).state_table e
        (setResp ((lookupRow (add_event m e).state_table e).getD []) s r) := rfl
  have hrow1 := lookupRow_add_event m e
  have hgetD : ((lookupRow (add_event m e).state_table e).getD []) =
      (lookupRow m.state_table e).getD [] := by
    rw [hrow1]
    rfl
  have hself : lookupRow (add_table_entry m e s r).state_table e =
      some (setResp ((lookupRow m.state_table e).getD []) s r) := by
    rw [hm2tab, hgetD]
    exact lookupRow_setRow_self _ _ _ (by rw [hrow1]; rfl)
  refine ⟨?_, ?_, ?_, ?_⟩
  · have hstates : (add_table_entry m e s r).states =
        insertState s (add_event m e).states := rfl
    rw [hstates]
    exact memberByName_insertState_self s (add_event m e).states
  · rw [hself]
    simpa using lookupResp_setResp_self ((lookupRow m.state_table e).getD []) s r
  · intro e' he'
    rw [hm2tab, lookupRow_setRow_ne _ _ _ _ he']
    exact lookupRow_add_event_ne m e e' he'
  · intro s' hs'
    rw [hself]
    simpa using
      lookupResp_setResp_ne ((lookupRow m.state_table e).getD []) s r s' hs'

/-- C7 witness: overwriting the `(go, A)` entry of the example machine with
the guarded response keeps `A` registered, stores the new response, and
leaves the `(go, B)` entry and other events' rows unchanged. -/
theorem C7_add_table_entry_spec_witness :
    memberByName stA (add_table_entry exM "go" stA respG).states = true ∧
    (lookupRow (add_table_entry exM "go" stA respG).state_table "go").bind
        (fun row => lookupResp row stA) = some respG ∧
    lookupRow (add_table_entry exM "go" stA respG).state_table "oth" =
      lookupRow exM.state_table "oth" ∧
    (lookupRow (add_table_entry exM "go" stA respG).state_table "go").bind
        (fun row => lookupResp row stB) =
      lookupResp ((lookupRow exM.state_table "go").getD []) stB := by
  obtain ⟨h1, h2, h3, h4⟩ := C7_add_table_entry_spec exM "go" stA respG
  exact ⟨h1, h2, h3 "oth" (by decide), h4 stB (by decide)⟩

/-! ## C9 -/

/-- The run loop as a relation between a start configuration, an event
sequence and an outcome, with one constructor per clause of the loop body
(lines 92-104): source exhausted; `AttributeError` on a rowless event;
no-match falling through to the end-state check (break or continue);
guard-suppressed `continue`; performed transition followed by the
end-state check (break or continue). -/
inductive RunRel (gval : String → Bool) :
    Machine → List (String × String) → RunResult → Prop where
  | done (m : Machine) : RunRel gval m [] (RunResult.ok m [] [])
  | crash (m : Machine) (e p : String) (rest : List (String × String))
      (h : lookupRow m.state_table e = none) :
      RunRel gval m ((e, p) :: rest) (RunResult.err m [])
  | ignoreHalt (m : Machine) (e p : String) (rest : List (String × String))
      (row : Row)
      (h1 : lookupRow m.state_table e = some row)
      (h2 : lookupResp row m.current_state = none)
      (h3 : m.current_state.is_end_state = true) :
      RunRel gval m ((e, p) :: rest) (RunResult.ok m [] rest)
  | ignoreNext (m : Machine) (e p : String) (rest : List (String × String))
      (row : Row) (r : RunResult)
      (h1 : lookupRow m.state_table e = some row)
      (h2 : lookupResp row m.current_state = none)
      (h3 : m.current_state.is_end_state = false)
      (h4 : RunRel gval m rest r) :
      RunRel gval m ((e, p) :: rest) r
  | guardStop (m : Machine) (e p : String) (rest : List (String × String))
      (row : Row) (resp : Response) (g : String) (r : RunResult)
      (h1 : lookupRow m.state_table e = some row)
      (h2 : lookupResp row m.current_state = some resp)
      (h3 : resp.guard_condition = some g)
      (h4 : gval g = false)
      (h5 : RunRel gval m rest r) :
      RunRel gval m ((e, p) :: rest) (prependTrace [Cb.guard g false] r)
  | transHalt (m : Machine) (e p : String) (rest : List (String × String))
      (row : Row) (resp : Response)
      (h1 : lookupRow m.state_table e = some row)
      (h2 : lookupResp row m.current_state = some resp)
      (h3 : guardBlocks gval resp = false)
      (h4 : resp.next_state.is_end_state = true) :
      RunRel gval m ((e, p) :: rest)
        (RunResult.ok { m with current_state := resp.next_state }
          (transTrace gval m resp p) rest)
  | transNext (m : Machine) (e p : String) (rest : List (String × String))
      (row : Row) (resp : Response) (r : RunResult)
      (h1 : lookupRow m.state_table e = some row)
      (h2 : lookupResp row m.current_state = some resp)
      (h3 : guardBlocks gval resp = false)
      (h4 : resp.next_state.is_end_state = false)
      (h5 : RunRel gval { m with current_state := resp.next_state } rest r) :
      RunRel gval m ((e, p) :: rest) (prependTrace (transTrace gval m resp p) r)

/-- A guard-suppressed step in the functional loop, phrased for reuse. -/
lemma runLoop_guardStop (gval : String → Bool) (m : Machine) (e p : String)
    (rest : List (String × String)) (row : Row) (resp : Response) (g : String)
    (h1 : lookupRow m.state_table e = some row)
    (h2 : lookupResp row m.current_state = some resp)
    (h3 : resp.guard_condition = some g)
    (h4 : gval g = false) :
    runLoop gval m ((e, p) :: rest) =
      prependTrace [Cb.guard g false] (runLoop gval m rest) := by
  rw [runLoop_cons, stepIter_guarded gval m e p row resp g h1 h2 h3 h4]

/-- The functional loop realizes the relation. -/
lemma runLoop_RunRel (gval : String → Bool) :
    ∀ (events : List (String × String)) (m : Machine),
      RunRel gval m events (runLoop gval m events) := by
  intro events
  induction events with
  | nil =>
    intro m
    exact RunRel.done m
  | cons ev rest ih =>
    intro m
    obtain ⟨e, p⟩ := ev
    rcases stepIter_cases gval m e p with hc | ⟨row, hrow, hresp, hs⟩ |
      ⟨row, resp, hrow, hresp, hg⟩
    · rw [runLoop_cons_crash gval m e p rest hc]
      have hnone : lookupRow m.state_table e = none := by
        by_contra hne
        cases hr : lookupRow m.state_table e with
        | none => exact hne hr
        | some rw0 =>
          have := stepIter_cases gval m e p
          unfold stepIter at hc
          rw [hr] at hc
          dsimp only at hc
          cases hr2 : lookupResp rw0 m.current_state with
          | none =>
            rw [hr2] at hc
            dsimp only at hc
            by_cases hend : m.current_state.is_end_state <;> simp [hend] at hc
          | some resp0 =>
            rw [hr2] at hc
            dsimp only at hc
            by_cases hgb : guardBlocks gval resp0 = true
            · simp [hgb] at hc
            · have hgb' : guardBlocks gval resp0 = false := by simpa using hgb
              by_cases hend : resp0.next_state.is_end_state <;>
                simp [hgb', hend] at hc
      exact RunRel.crash m e p rest hnone
    · by_cases hend : m.current_state.is_end_state
      · rw [if_pos hend] at hs
        rw [runLoop_cons_halt gval m e p rest m [] hs]
        exact RunRel.ignoreHalt m e p rest row hrow hresp hend
      · rw [if_neg hend] at hs
        rw [runLoop_cons_next gval m e p rest m [] hs, prependTrace_nil]
        exact RunRel.ignoreNext m e p rest row (runLoop gval m rest) hrow hresp
          (by simpa using hend) (ih m)
    · rcases hg with ⟨hgt, hs⟩ | ⟨hgf, hs⟩
      · obtain ⟨g, hgc, hgv⟩ : ∃ g, resp.guard_condition = some g ∧ gval g = false := by
          unfold guardBlocks at hgt
          cases hgc : resp.guard_condition with
          | none => rw [hgc] at hgt; simp at hgt
          | some g =>
            rw [hgc] at hgt
            simp at hgt
            exact ⟨g, rfl, hgt⟩
        rw [runLoop_guardStop gval m e p rest row resp g hrow hresp hgc hgv]
        exact RunRel.guardStop m e p rest row resp g (runLoop gval m rest)
          hrow hresp hgc hgv (ih m)
      · by_cases hend : resp.next_state.is_end_state
        · rw [if_pos hend] at hs
          rw [runLoop_cons_halt gval m e p rest _ _ hs]
          exact RunRel.transHalt m e p rest row resp hrow hresp hgf hend
        · rw [if_neg hend] at hs
          rw [runLoop_cons_next gval m e p rest _ _ hs]
          exact RunRel.transNext m e p rest row resp _ hrow hresp hgf
            (by simpa using hend) (ih { m with current_state := resp.next_state })

/-- The relation is deterministic: each configuration and event sequence
admits exactly one outcome. -/
lemma RunRel_unique (gval : String → Bool) :
    ∀ (m : Machine) (events : List (String × String)) (r1 r2 : RunResult),
      RunRel gval m events r1 → RunRel gval m events r2 → r1 = r2 := by
  intro m events r1 r2 h1
  induction h1 generalizing r2 with
  | done m =>
    intro hb
    cases hb
    rfl
  | crash m e p rest h =>
    intro hb
    cases hb <;> simp_all
  | ignoreHalt m e p rest row h1 h2 h3 =>
    intro hb
    cases hb <;> simp_all
  | ignoreNext m e p rest row r h1 h2 h3 h4 ih =>
    intro hb
    cases hb
    case crash h' => simp_all
    case ignoreHalt row' h1' h2' h3' => simp_all
    case ignoreNext row' r' h1' h2' h3' h4' => exact ih _ (by assumption)
    case guardStop row' resp' g' r' h1' h2' h3' h4' h5' => simp_all
    case transHalt row' resp' h1' h2' h3' h4' => simp_all
    case transNext row' resp' r' h1' h2' h3' h4' h5' => simp_all
  | guardStop m e p rest row resp g r h1 h2 h3 h4 h5 ih =>
    intro hb
    cases hb
    case crash h' => simp_all
    case ignoreHalt row' h1' h2' h3' => simp_all
    case ignoreNext row' r' h1' h2' h3' h4' => simp_all
    case guardStop row' resp' g' r' h1' h2' h3' h4' h5' =>
      have hrow : row = row' := by
        have ha : lookupRow m.state_table e = some row' := by assumption
        rw [h1] at ha
        exact Option.some.inj ha
      subst hrow
      have hresp : resp = resp' := by
        have hb : lookupResp row m.current_state = some resp' := by assumption
        rw [h2] at hb
        exact Option.some.inj hb
      subst hresp
      have hg : g = g' := by
        have hcg : resp.guard_condition = some g' := by assumption
        rw [h3] at hcg
        exact Option.some.inj hcg
      subst hg
      rw [ih _ (by assumption)]
    case transHalt row' resp' h1' h2' h3' h4' => simp_all [guardBlocks]
    case transNext row' resp' r' h1' h2' h3' h4' h5' => simp_all [guardBlocks]
  | transHalt m e p rest row resp h1 h2 h3 h4 =>
    intro hb
    cases hb
    case crash h' => simp_all
    case ignoreHalt row' h1' h2' h3' => simp_all
    case ignoreNext row' r' h1' h2' h3' h4' => simp_all
    case guardStop row' resp' g' r' h1' h2' h3' h4' h5' => simp_all [guardBlocks]
    case transHalt row' resp' h1' h2' h3' h4' => simp_all
    case transNext row' resp' r' h1' h2' h3' h4' h5' => simp_all
  | transNext m e p rest row resp r h1 h2 h3 h4 h5 ih =>
    intro hb
    cases hb
    case crash h' => simp_all
    case ignoreHalt row' h1' h2' h3' => simp_all
    case ignoreNext row' r' h1' h2' h3' h4' => simp_all
    case guardStop row' resp' g' r' h1' h2' h3' h4' h5' => simp_all [guardBlocks]
    case transHalt row' resp' h1' h2' h3' h4' => simp_all
    case transNext row' resp' r' h1' h2' h3' h4' h5' =>
      have hrow : row = row' := by
        have ha : lookupRow m.state_table e = some row' := by assumption
        rw [h1] at ha
        exact Option.some.inj ha
      subst hrow
      have hresp : resp = resp' := by
        have hb : lookupResp row m.current_state = some resp' := by assumption
        rw [h2] at hb
        exact Option.some.inj hb
      subst hresp
      rw [ih _ (by assumption)]

/-- C9: the run loop is deterministic.  The loop's dispatch clauses, read
as a relation, relate each start configuration and event sequence to at
most one outcome — final machine (hence final current state), ordered
callback trace and unconsumed events together — and the loop function
realizes that relation, so two independent runs of the same machine over
the same finite event sequence coincide in all observables. -/
theorem C9_run_deterministic (gval : String → Bool) :
    (∀ (m : Machine) (events : List (String × String)),
      RunRel gval m events (runLoop gval m events)) ∧
    (∀ (m : Machine) (events : List (String × String)) (r1 r2 : RunResult),
      RunRel gval m events r1 → RunRel gval m events r2 → r1 = r2) :=
  ⟨fun m events => runLoop_RunRel gval events m, RunRel_unique gval⟩

/-- C9 witness: the unique outcome that the relation admits for the spec's
example run is the one the loop computes. -/
theorem C9_run_deterministic_witness :
    runLoop gvTrue exM [("go", "1"), ("go", "2"), ("go", "3")] =
      RunResult.ok { exM with current_state := stC }
        [Cb.exit "A" "exA", Cb.action "ab" "1", Cb.entry "B" "enB",
          Cb.exit "B" "exB", Cb.action "bc" "2"] [("go", "3")] := by
  have h1 := (C9_run_deterministic gvTrue).1 exM
    [("go", "1"), ("go", "2"), ("go", "3")]
  have h2 := (C9_run_deterministic gvTrue).1 exM
    [("go", "1"), ("go", "2"), ("go", "3")]
  rw [show runLoop gvTrue exM [("go", "1"), ("go", "2"), ("go", "3")] =
      RunResult.ok { exM with current_state := stC }
        [Cb.exit "A" "exA", Cb.action "ab" "1", Cb.entry "B" "enB",
          Cb.exit "B" "exB", Cb.action "bc" "2"] [("go", "3")] from by decide] at h2
  exact (C9_run_deterministic gvTrue).2 exM
    [("go", "1"), ("go", "2"), ("go", "3")] _ _ h1 h2

/-! ## C10 -/

/-- No entry record for a state named `n` occurs in the trace. -/
def entryAvoid (n : String) (t : List Cb) : Bool :=
  t.all (fun c => match c with
    | Cb.entry n' _ => n' ≠ n
    | _ => true)

/-- No response stored in the table targets a state named `n`. -/
def targetsAvoid (t : Table) (n : String) : Bool :=
  t.all (fun kv => kv.2.all (fun sr => sr.2.next_state.name ≠ n))

/-- `entryAvoid` distributes over concatenation. -/
lemma entryAvoid_append (n : String) (a b : List Cb) :
    entryAvoid n (a ++ b) = (entryAvoid n a && entryAvoid n b) :=
  List.all_append

/-- A looked-up response's target avoids `n` when all stored targets do. -/
lemma targetsAvoid_lookup (t : Table) (n : String) (e : String) (row : Row)
    (s : State) (resp : Response)
    (hall : targetsAvoid t n = true)
    (h1 : lookupRow t e = some row)
    (h2 : lookupResp row s = some resp) :
    ¬ resp.next_state.name = n := by
  unfold lookupRow at h1
  unfold lookupResp at h2
  rw [Option.map_eq_some'] at h1 h2
  obtain ⟨kv, hfind, hkv⟩ := h1
  obtain ⟨kv2, hfind2, hkv2⟩ := h2
  have hmem : kv ∈ t := List.mem_of_find?_eq_some hfind
  have hmem2 : kv2 ∈ row := List.mem_of_find?_eq_some hfind2
  unfold targetsAvoid at hall
  rw [List.all_eq_true] at hall
  have h3 := hall kv hmem
  rw [List.all_eq_true, hkv] at h3
  have h4 := h3 kv2 hmem2
  rw [hkv2] at h4
  simpa using h4

/-- A transition's trace contains an entry record only for the target's
name, so it avoids `n` whenever the target does. -/
lemma entryAvoid_transTrace (gval : String → Bool) (m : Machine)
    (resp : Response) (p n : String) (h : ¬ resp.next_state.name = n) :
    entryAvoid n (transTrace gval m resp p) = true := by
  unfold transTrace
  rw [entryAvoid_append, entryAvoid_append, entryAvoid_append]
  have h1 : entryAvoid n (guardTrace gval resp) = true := by
    unfold guardTrace
    cases resp.guard_condition <;> simp [entryAvoid]
  have h2 : entryAvoid n (do_exit m.current_state) = true := by
    unfold do_exit
    cases m.current_state.exit_action <;> simp [entryAvoid]
  have h3 : entryAvoid n (actTrace resp.action p) = true := by
    unfold actTrace
    cases resp.action <;> simp [entryAvoid]
  have h4 : entryAvoid n (do_entry resp.next_state) = true := by
    unfold do_entry
    cases resp.next_state.entry_action <;> simp [entryAvoid, h]
  simp [h1, h2, h3, h4]

/-- The loop's trace contains entry records only for names that some
stored response targets. -/
lemma runLoop_entryAvoid (gval : String → Bool) (n : String) :
    ∀ (events : List (String × String)) (m : Machine),
      targetsAvoid m.state_table n = true →
      entryAvoid n (traceOf (runLoop gval m events)) = true := by
  intro events
  induction events with
  | nil =>
    intro m hall
    simp [runLoop, traceOf, entryAvoid]
  | cons ev rest ih =>
    intro m hall
    obtain ⟨e, p⟩ := ev
    rcases stepIter_cases gval m e p with hc | ⟨row, hrow, hresp, hs⟩ |
      ⟨row, resp, hrow, hresp, hg⟩
    · rw [runLoop_cons_crash gval m e p rest hc]
      simp [traceOf, entryAvoid]
    · by_cases hend : m.current_state.is_end_state
      · rw [if_pos hend] at hs
        rw [runLoop_cons_halt gval m e p rest m [] hs]
        simp [traceOf, entryAvoid]
      · rw [if_neg hend] at hs
        rw [runLoop_cons_next gval m e p rest m [] hs, prependTrace_nil]
        exact ih m hall
    · rcases hg with ⟨hgt, hs⟩ | ⟨hgf, hs⟩
      · rw [runLoop_cons_next gval m e p rest m (guardTrace gval resp) hs,
          traceOf_prependTrace, entryAvoid_append]
        have hga : entryAvoid n (guardTrace gval resp) = true := by
          unfold guardTrace
          cases resp.guard_condition <;> simp [entryAvoid]
        simp [hga, ih m hall]
      · have hn : ¬ resp.next_state.name = n :=
          targetsAvoid_lookup m.state_table n e row m.current_state resp
            hall hrow hresp
        by_cases hend : resp.next_state.is_end_state
        · rw [if_pos hend] at hs
          rw [runLoop_cons_halt gval m e p rest _ _ hs]
          simpa [traceOf] using entryAvoid_transTrace gval m resp p n hn
        · rw [if_neg hend] at hs
          rw [runLoop_cons_next gval m e p rest _ _ hs, traceOf_prependTrace,
            entryAvoid_append]
          simp [entryAvoid_transTrace gval m resp p n hn,
            ih { m with current_state := resp.next_state } (by simpa using hall)]

/-- C10: the entry action of the state the machine starts in never fires
during `run()` unless some stored response targets that state: when no
response's `next_state` carries the start state's name, the whole run
trace contains no entry record for that name — in particular the engine
does not invoke the initial state's entry action when the run begins. -/
theorem C10_initial_entry_never_fires (gval : String → Bool) (m : Machine)
    (events : List (String × String))
    (h : targetsAvoid m.state_table m.current_state.name = true) :
    entryAvoid m.current_state.name (traceOf (run gval m events)) = true := by
  have ht := runLoop_entryAvoid gval m.current_state.name events m h
  unfold run
  cases hr : runLoop gval m events with
  | ok m' t u =>
    rw [hr] at ht
    dsimp only
    rw [show traceOf (RunResult.ok m'
        ((match m.initial_action with
          | some f => [Cb.initial f]
          | none => []) ++ t ++ (match m'.end_action with
          | some f => [Cb.endAct f]
          | none => [])) u) =
        (match m.initial_action with
          | some f => [Cb.initial f]
          | none => []) ++ t ++ (match m'.end_action with
          | some f => [Cb.endAct f]
          | none => []) from rfl]
    rw [entryAvoid_append, entryAvoid_append]
    have hi : entryAvoid m.current_state.name (match m.initial_action with
        | some f => [Cb.initial f]
        | none => []) = true := by
      cases m.initial_action <;> simp [entryAvoid]
    have he : entryAvoid m.current_state.name (match m'.end_action with
        | some f => [Cb.endAct f]
        | none => []) = true := by
      cases m'.end_action <;> simp [entryAvoid]
    simp [hi, he]
    simpa [traceOf] using ht
  | err m' t =>
    rw [hr] at ht
    dsimp only
    rw [show traceOf (RunResult.err m'
        ((match m.initial_action with
          | some f => [Cb.initial f]
          | none => []) ++ t)) =
        (match m.initial_action with
          | some f => [Cb.initial f]
          | none => []) ++ t from rfl]
    rw [entryAvoid_append]
    have hi : entryAvoid m.current_state.name (match m.initial_action with
        | some f => [Cb.initial f]
        | none => []) = true := by
      cases m.initial_action <;> simp [entryAvoid]
    simp [hi]
    simpa [traceOf] using ht

/-- C10 witness: the guarded machine starts in `A`, whose entry action is
set; no response targets `A`, and the run's trace indeed contains no entry
record for `A`. -/
theorem C10_initial_entry_never_fires_witness :
    entryAvoid exG.current_state.name
      (traceOf (run gvTrue exG [("go", "x")])) = true :=
  C10_initial_entry_never_fires gvTrue exG [("go", "x")] (by decide)
